import Mathlib

/-!
Verification of the depcheck-rs dependency-checking core:
a shallow embedding of `crates/depcheck_core/src/checker.rs` and
`crates/core/src/checker.rs`, together with models of the manifest and
configuration collaborators, and proofs of the behavioural claims about
extraction, classification, aggregation and the result queries.
-/

namespace Depcheck

/-- A dependency mapping of a manifest: dependency name to version
specification, key-ordered as in a `BTreeMap`. -/
abbrev DepsSet := List (String × String)

/-- Key membership in a dependency mapping. -/
def DepsSet.hasKey (d : DepsSet) (k : String) : Bool :=
  d.any (fun e => e.1 == k)

/-- The keys of a dependency mapping, in map order. -/
def DepsSet.keys (d : DepsSet) : List String :=
  d.map Prod.fst

/-- Modelled from the spec: the Manifest model (`package.rs` is not in the
sources). Name, version and the four dependency mappings; the four boolean
fields record whether the manifest declares a binary entry and the
`main`/`module`/`exports` importable entries, as needed for bin-only
detection. -/
structure Package where
  name : String
  version : String
  dependencies : DepsSet
  dev_dependencies : DepsSet
  peer_dependencies : DepsSet
  optional_dependencies : DepsSet
  has_bin : Bool
  has_main : Bool
  has_module : Bool
  has_exports : Bool
deriving DecidableEq

/-- Modelled from the spec: membership in the regular dependencies. -/
def Package.is_dependency (p : Package) (n : String) : Bool :=
  p.dependencies.hasKey n

/-- Modelled from the spec: membership in the dev dependencies. -/
def Package.is_dev_dependency (p : Package) (n : String) : Bool :=
  p.dev_dependencies.hasKey n

/-- Modelled from the spec: membership in the peer dependencies. -/
def Package.is_peer_dependency (p : Package) (n : String) : Bool :=
  p.peer_dependencies.hasKey n

/-- Modelled from the spec: membership in the optional dependencies. -/
def Package.is_optional_dependency (p : Package) (n : String) : Bool :=
  p.optional_dependencies.hasKey n

/-- Modelled from the spec: membership in any of the four manifest
mappings. -/
def Package.is_any_dependency (p : Package) (n : String) : Bool :=
  p.is_dependency n || p.is_dev_dependency n ||
    p.is_peer_dependency n || p.is_optional_dependency n

/-- Modelled from the spec: the manifest loader collaborator (`load_module`
is not in the sources). The filesystem is a partial map from a directory
path to the manifest found there; `none` is the structured load failure. -/
abbrev Env := String → Option Package

/-- Modelled from the spec: the configuration collaborator (`config.rs` is
not in the sources). The compiled ignore-name matcher is carried as a
predicate. -/
structure Config where
  directory : String
  ignore_patterns : List String
  skip_missing : Bool
  ignore_bin_package : Bool
  ignore_matcher : String → Bool
  read_depcheckignore : Bool

/-- Lexicographic comparison of character lists, the order Rust's
`BTreeMap<String, _>` keys follow (UTF-8 byte order coincides with
code-point order). -/
def charsLt : List Char → List Char → Bool
  | [], [] => false
  | [], _ :: _ => true
  | _ :: _, [] => false
  | a :: as, b :: bs =>
    if a < b then true
    else if b < a then false
    else charsLt as bs

/-- Lexicographic order on strings (Rust `String: Ord`). -/
def strLt (a b : String) : Bool :=
  charsLt a.data b.data

/-- Split a character list at `'/'` separators. -/
def segmentsAux : List Char → List Char → List (List Char)
  | [], acc => [acc.reverse]
  | c :: cs, acc =>
    if c = '/' then acc.reverse :: segmentsAux cs []
    else segmentsAux cs (c :: acc)

/-- The `'/'`-separated path segments of a specifier. -/
def path_segments (s : String) : List String :=
  (segmentsAux s.data []).map String.mk

/-- Whether a specifier is scoped (leading `'@'`). -/
def starts_with_at (s : String) : Bool :=
  match s.data with
  | c :: _ => c == '@'
  | [] => false

/-- Join path segments back with `'/'`. -/
def join_path : List String → String
  | [] => ""
  | [x] => x
  | x :: xs => x ++ "/" ++ join_path xs

/-- The install location of a dependency:
`directory.join("node_modules").join(dependency)` in `checker.rs`. -/
def node_modules_path (directory dependency : String) : String :=
  directory ++ "/node_modules/" ++ dependency

/-- Modelled from the spec: bin-only detection (`is_bin_dependency` is not
in the sources). A dependency is bin-only when its own installed manifest
declares a binary entry but none of the importable entries
(`main`/`module`/`exports`); a manifest that fails to load is not
bin-only. -/
def is_bin_dependency (env : Env) (directory dependency : String) : Bool :=
  match env (node_modules_path directory dependency) with
  | some m => m.has_bin && !m.has_main && !m.has_module && !m.has_exports
  | none => false

/-- Modelled from the spec: the fixed built-in/runtime module
allow-list (`is_core_module` is not in the sources). -/
def core_modules : List String :=
  ["assert", "buffer", "child_process", "cluster", "console", "constants",
   "crypto", "dgram", "dns", "domain", "events", "fs", "http", "http2",
   "https", "inspector", "module", "net", "os", "path", "perf_hooks",
   "process", "punycode", "querystring", "readline", "repl", "stream",
   "string_decoder", "timers", "tls", "tty", "url", "util", "v8", "vm",
   "worker_threads", "zlib"]

/-- Modelled from the spec: a name is a core module when its first path
segment is on the allow-list, so built-in sub-paths are covered as well. -/
def is_core_module (n : String) : Bool :=
  core_modules.contains ((path_segments n).headD n)

/-- Modelled from the spec: package-name normalization
(`extract_package_name` is not in the sources). Scoped names (leading '@')
keep their first two path segments; others keep only the first. -/
def extract_package_name (specifier : String) : String :=
  let segments := path_segments specifier
  if starts_with_at specifier then
    join_path (segments.take 2)
  else
    segments.headD specifier

/-- Modelled from the spec: the name of the type-stub package of a name
(`extract_type_name` is not in the sources). -/
def extract_type_name (n : String) : String :=
  "@types/" ++ n

/-- The detected dialect of a parsed file (`Syntax::Typescript(_)` versus
the remaining dialects in `checker.rs`). -/
inductive Dialect where
  | typescript : Dialect
  | es : Dialect
deriving DecidableEq

/-- The kind of a raw dependency (`swc_ecma_dep_graph::DependencyKind`);
`checker.rs` only distinguishes `ImportType` from the rest. -/
inductive DepKind where
  | importValue : DepKind
  | importType : DepKind
  | requireCall : DepKind
  | exportDecl : DepKind
deriving DecidableEq

/-- A raw dependency extracted from a file's AST: specifier plus kind. -/
structure RawDep where
  specifier : String
  kind : DepKind
deriving DecidableEq

/-- The external-specifier filter of `check_directory` (checker.rs lines
107-112): the first path component of the specifier must be a normal
segment, not empty, absolute, or relative. -/
def is_external_specifier (s : String) : Bool :=
  match path_segments s with
  | [] => false
  | root :: _ => root != "" && root != "." && root != ".."

/-- The per-dependency classification of `check_directory` (checker.rs
lines 113-137): type-only imports are replaced by their declared
`@types/` stub, value imports under a type-aware dialect additionally
emit a declared `@types/` stub. -/
def classify (dialect : Dialect) (package : Package) (name : String)
    (kind : DepKind) : List String :=
  match dialect with
  | Dialect.typescript =>
    if kind == DepKind.importType then
      let type_dependency := "@types/" ++ name
      if package.is_dependency type_dependency ||
          package.is_dev_dependency type_dependency then
        [type_dependency]
      else
        []
    else
      let type_dependency := extract_type_name name
      if package.is_dependency type_dependency ||
          package.is_dev_dependency type_dependency then
        [name, type_dependency]
      else
        [name]
  | Dialect.es => [name]

/-- The transitive-forwarding step of `check_directory` (checker.rs lines
144-176): on a successful nested-manifest load the dependency is joined by
the nested manifest's peer and optional dependency names that the root
manifest declares; on a failed load only the dependency itself is kept. -/
def forward (env : Env) (directory : String) (package : Package)
    (dependency : String) : List String :=
  match env (node_modules_path directory dependency) with
  | some dependency_module =>
      dependency ::
        (dependency_module.peer_dependencies.keys.filter
          (fun peer => package.is_dependency peer ||
            package.is_dev_dependency peer) ++
         dependency_module.optional_dependencies.keys.filter
          (fun opt => package.is_dependency opt ||
            package.is_dev_dependency opt))
  | none => [dependency]

/-- The full per-file extraction pipeline of `check_directory` (checker.rs
lines 103-177): external filter, classification, core-module filter,
optional bin-only filter, transitive forwarding. -/
def extract_file_dependencies (env : Env) (config : Config)
    (package : Package) (dialect : Dialect) (raw : List RawDep) :
    List String :=
  ((((raw.filter (fun d => is_external_specifier d.specifier)).flatMap
      (fun d => classify dialect package
        (extract_package_name d.specifier) d.kind)).filter
      (fun n => !is_core_module n)).filter
      (fun n => !config.ignore_bin_package ||
        !is_bin_dependency env config.directory n)).flatMap
    (forward env config.directory package)

/-- The usage map: dependency name to the set of relative file paths that
use it, key-ordered as the `BTreeMap<String, HashSet<RelativePathBuf>>` of
`CheckResult`. -/
abbrev UsageMap := List (String × Finset String)

/-- One `entry(dependency).or_insert(empty).insert(path)` step of the
aggregation in `check_package` (checker.rs lines 44-51), on the ordered
map representation. -/
def addUsage : UsageMap → String → String → UsageMap
  | [], dependency, file => [(dependency, {file})]
  | (k, s) :: rest, dependency, file =>
    if strLt dependency k then
      (dependency, {file}) :: (k, s) :: rest
    else if dependency == k then
      (k, insert file s) :: rest
    else
      (k, s) :: addUsage rest dependency file

/-- Merge one file's extracted name list into the usage map. -/
def addFile (m : UsageMap) (file : String) (deps : List String) : UsageMap :=
  deps.foldl (fun acc d => addUsage acc d file) m

/-- The aggregation of `check_package` (checker.rs lines 42-51) and of the
channel-draining loop of the parallel checker (core checker.rs lines
162-169): fold every (file, extracted names) pair into the usage map. -/
def aggregate (files : List (String × List String)) : UsageMap :=
  files.foldl (fun acc e => addFile acc e.1 e.2) []

/-- Key membership in the usage map
(`using_dependencies.contains_key`). -/
def usageKeys (m : UsageMap) : List String :=
  m.map Prod.fst

/-- The finalized check result (checker.rs lines 185-191). -/
structure CheckResult where
  package : Package
  directory : String
  using_dependencies : UsageMap
  config : Config

/-- `CheckResult::get_missing_dependencies` (checker.rs lines 194-213):
empty under `skip_missing`, otherwise the usage-map entries not matched by
the ignore-name patterns, not declared anywhere in the manifest, and not
bin-only when that filter is enabled. -/
def get_missing_dependencies (env : Env) (r : CheckResult) : UsageMap :=
  if r.config.skip_missing then
    []
  else
    ((r.using_dependencies.filter
        (fun e => !r.config.ignore_matcher e.1)).filter
        (fun e => !r.package.is_any_dependency e.1)).filter
      (fun e => !r.config.ignore_bin_package ||
        !is_bin_dependency env r.directory e.1)

/-- `CheckResult::filter_unused_dependencies` (checker.rs lines 223-238):
the declared names not matched by the ignore-name patterns, absent from
the usage map, and not bin-only when that filter is enabled. -/
def filter_unused_dependencies (env : Env) (r : CheckResult)
    (dependencies : DepsSet) : List String :=
  (((dependencies.filter
      (fun e => !r.config.ignore_matcher e.1)).filter
      (fun e => !(usageKeys r.using_dependencies).contains e.1)).filter
      (fun e => !r.config.ignore_bin_package ||
        !is_bin_dependency env r.directory e.1)).map Prod.fst

/-- `CheckResult::get_unused_dependencies` (checker.rs lines 215-217). -/
def get_unused_dependencies (env : Env) (r : CheckResult) : List String :=
  filter_unused_dependencies env r r.package.dependencies

/-- `CheckResult::get_unused_dev_dependencies` (checker.rs lines
219-221). -/
def get_unused_dev_dependencies (env : Env) (r : CheckResult) :
    List String :=
  filter_unused_dependencies env r r.package.dev_dependencies

/-- The ignore-pattern compilation loop of the parallel checker (core
checker.rs lines 71-75): each pattern is added to the override builder and
the first malformed one aborts with context. `compile_ok` stands for the
external glob compiler accepting a pattern. -/
def build_overrides (compile_ok : String → Bool) :
    List String → Except String Unit
  | [] => Except.ok ()
  | p :: rest =>
    if compile_ok p then
      build_overrides compile_ok rest
    else
      Except.error ("Malformed ignore pattern: " ++ p)

/-- A walker entry: either a discovered file path or a per-entry traversal
error (`WorkerResult` in core checker.rs lines 40-43). -/
abbrev WalkEntry := Except String String

/-- Modelled from the spec: the external syntax parser collaborator
(`parser.rs` is not in the sources): a file path yields an AST reduced to
its raw dependencies plus the detected dialect, or fails. -/
abbrev ParseFn := String → Option (Dialect × List RawDep)

/-- `Checker::check_directory` of the parallel checker (core checker.rs
lines 64-172): compile the ignore patterns (first malformed pattern aborts
before traversal), then walk; per-entry walk errors are skipped
(lines 117-119), files whose parse fails contribute nothing (line 143),
every parsed file's extracted names are aggregated into the usage map. -/
def check_directory (compile_ok : String → Bool) (env : Env)
    (config : Config) (package : Package) (parse : ParseFn)
    (entries : List WalkEntry) : Except String UsageMap :=
  match build_overrides compile_ok config.ignore_patterns with
  | Except.error e => Except.error e
  | Except.ok _ =>
    Except.ok (aggregate (entries.filterMap (fun entry =>
      match entry with
      | Except.error _ => none
      | Except.ok path =>
        match parse path with
        | none => none
        | some (dialect, raw) =>
          some (path, extract_file_dependencies env config package
            dialect raw))))

/-- The usage map produced by a whole run of the serial checker on a list
of already-parsed files (checker.rs lines 37-59 composed with lines
103-177). -/
def run_usage (env : Env) (config : Config) (package : Package)
    (parsed : List (String × Dialect × List RawDep)) : UsageMap :=
  aggregate (parsed.map (fun e =>
    (e.1, extract_file_dependencies env config package e.2.1 e.2.2)))

/-! Concrete fixtures used to witness the theorems on explicit inputs. -/

/-- A root manifest declaring `react` and its type stubs. -/
def typesPkg : Package :=
  { name := "fixture", version := "1.0.0",
    dependencies := [("react", "18.0.0")],
    dev_dependencies := [("@types/react", "18.0.0")],
    peer_dependencies := [], optional_dependencies := [],
    has_bin := false, has_main := true, has_module := false,
    has_exports := false }

/-- A root manifest declaring `fs` and `lodash` as regular
dependencies. -/
def rootPkg : Package :=
  { name := "root", version := "1.0.0",
    dependencies := [("fs", "1.0.0"), ("lodash", "1.0.0")],
    dev_dependencies := [], peer_dependencies := [],
    optional_dependencies := [],
    has_bin := false, has_main := true, has_module := false,
    has_exports := false }

/-- An installed `lodash` manifest declaring `fs` as a peer
dependency. -/
def lodashPkg : Package :=
  { name := "lodash", version := "4.0.0",
    dependencies := [], dev_dependencies := [],
    peer_dependencies := [("fs", "*")], optional_dependencies := [],
    has_bin := false, has_main := true, has_module := false,
    has_exports := false }

/-- A plain configuration: no ignores, nothing skipped. -/
def plainConfig : Config :=
  { directory := "/proj", ignore_patterns := [], skip_missing := false,
    ignore_bin_package := false, ignore_matcher := fun _ => false,
    read_depcheckignore := false }

/-- A filesystem with exactly one installed manifest, for `lodash`. -/
def lodashEnv : Env := fun p =>
  if p = "/proj/node_modules/lodash" then some lodashPkg else none

/-- An empty filesystem: every manifest load fails. -/
def emptyEnv : Env := fun _ => none

/-- One parsed file importing only `lodash`. -/
def lodashParsed : List (String × Dialect × List RawDep) :=
  [("index.js", Dialect.es, [⟨"lodash", DepKind.importValue⟩])]

/-- A manifest with dependencies `{a, b}` for the unused scenario. -/
def abPkg : Package :=
  { name := "ab", version := "1.0.0",
    dependencies := [("a", "1.0.0"), ("b", "1.0.0")],
    dev_dependencies := [], peer_dependencies := [],
    optional_dependencies := [],
    has_bin := false, has_main := true, has_module := false,
    has_exports := false }

/-- The finalized result of the unused scenario: only `a` is used. -/
def abResult : CheckResult :=
  { package := abPkg, directory := "/proj",
    using_dependencies := [("a", {"index.js"})], config := plainConfig }

/-- A finalized result whose configuration sets `skip_missing`. -/
def skipResult : CheckResult :=
  { package := rootPkg, directory := "/proj",
    using_dependencies := [("left-pad", {"index.js"})],
    config := { plainConfig with skip_missing := true } }

/-- A finalized result with one undeclared used dependency. -/
def missingResult : CheckResult :=
  { package := abPkg, directory := "/proj",
    using_dependencies := [("a", {"index.js"}), ("c", {"index.js"})],
    config := plainConfig }

/-- A glob compiler that rejects exactly the pattern `"["`. -/
def bracketCompile : String → Bool := fun q => q != "["

/-- A configuration whose second ignore pattern is malformed. -/
def badPatternConfig : Config :=
  { plainConfig with ignore_patterns := ["ok", "[", "later"] }

/-- A parser that fails on every file. -/
def failParse : ParseFn := fun _ => none

/-! Order theory for the lexicographic key order of the usage map. -/

theorem charsLt_irrefl (l : List Char) : charsLt l l = false := by
  induction l with
  | nil => rfl
  | cons a as ih => simp [charsLt, lt_irrefl a, ih]

theorem charsLt_asymm :
    ∀ (l1 l2 : List Char), charsLt l1 l2 = true → charsLt l2 l1 = false := by
  intro l1
  induction l1 with
  | nil =>
    intro l2 h
    cases l2 with
    | nil => simp [charsLt] at h
    | cons b bs => rfl
  | cons a as ih =>
    intro l2 h
    cases l2 with
    | nil => simp [charsLt] at h
    | cons b bs =>
      by_cases hab : a < b
      · have hba : ¬ b < a := lt_asymm hab
        simp [charsLt, hab, hba]
      · by_cases hba : b < a
        · simp [charsLt, hab, hba] at h
        · simp [charsLt, hab, hba] at h ⊢
          exact ih bs h

theorem charsLt_trans :
    ∀ (l1 l2 l3 : List Char), charsLt l1 l2 = true → charsLt l2 l3 = true →
      charsLt l1 l3 = true := by
  intro l1
  induction l1 with
  | nil =>
    intro l2 l3 h12 h23
    cases l3 with
    | nil => cases l2 <;> simp [charsLt] at h12 h23
    | cons c cs => rfl
  | cons a as ih =>
    intro l2 l3 h12 h23
    cases l2 with
    | nil => simp [charsLt] at h12
    | cons b bs =>
      cases l3 with
      | nil => simp [charsLt] at h23
      | cons c cs =>
        by_cases hab : a < b
        · by_cases hbc : b < c
          · simp [charsLt, lt_trans hab hbc]
          · by_cases hcb : c < b
            · simp [charsLt, hbc, hcb] at h23
            · have hbceq : b = c := le_antisymm (not_lt.mp hcb) (not_lt.mp hbc)
              subst hbceq
              simp [charsLt, hab]
        · by_cases hba : b < a
          · simp [charsLt, hab, hba] at h12
          · have heq : a = b := le_antisymm (not_lt.mp hba) (not_lt.mp hab)
            subst heq
            simp [charsLt, lt_irrefl] at h12
            by_cases hac : a < c
            · simp [charsLt, hac]
            · by_cases hca : c < a
              · simp [charsLt, hac, hca] at h23
              · have heq2 : a = c := le_antisymm (not_lt.mp hca) (not_lt.mp hac)
                subst heq2
                simp [charsLt, lt_irrefl] at h23 ⊢
                exact ih bs cs h12 h23

theorem charsLt_eq_of_not :
    ∀ (l1 l2 : List Char), charsLt l1 l2 = false → charsLt l2 l1 = false →
      l1 = l2 := by
  intro l1
  induction l1 with
  | nil =>
    intro l2 h12 _
    cases l2 with
    | nil => rfl
    | cons b bs => simp [charsLt] at h12
  | cons a as ih =>
    intro l2 h12 h21
    cases l2 with
    | nil => simp [charsLt] at h21
    | cons b bs =>
      by_cases hab : a < b
      · simp [charsLt, hab] at h12
      · by_cases hba : b < a
        · simp [charsLt, hba] at h21
        · have heq : a = b := le_antisymm (not_lt.mp hba) (not_lt.mp hab)
          subst heq
          simp [charsLt, lt_irrefl] at h12 h21
          rw [ih bs h12 h21]

theorem charsLt_iff_lex :
    ∀ (l1 l2 : List Char),
      charsLt l1 l2 = true ↔ List.Lex (· < ·) l1 l2 := by
  intro l1
  induction l1 with
  | nil =>
    intro l2
    cases l2 with
    | nil =>
      constructor
      · intro h
        exact absurd h (by rw [charsLt]; exact Bool.false_ne_true)
      · intro h
        nomatch h
    | cons b bs =>
      constructor
      · intro _
        exact List.Lex.nil
      · intro _
        rfl
  | cons a as ih =>
    intro l2
    cases l2 with
    | nil =>
      constructor
      · intro h
        exact absurd h (by rw [charsLt]; exact Bool.false_ne_true)
      · intro h
        nomatch h
    | cons b bs =>
      by_cases hab : a < b
      · constructor
        · intro _
          exact List.Lex.rel hab
        · intro _
          rw [charsLt]
          simp [hab]
      · by_cases hba : b < a
        · constructor
          · intro h
            rw [charsLt] at h
            simp [hab, hba] at h
          · intro h
            cases h with
            | rel hh => exact absurd hh hab
            | cons hh => exact absurd hba (lt_irrefl a)
        · have heq : a = b := le_antisymm (not_lt.mp hba) (not_lt.mp hab)
          subst heq
          constructor
          · intro h
            rw [charsLt] at h
            simp [lt_irrefl] at h
            exact List.Lex.cons ((ih bs).mp h)
          · intro h
            rw [charsLt]
            simp [lt_irrefl]
            cases h with
            | rel hh => exact absurd hh (lt_irrefl a)
            | cons hh => exact (ih bs).mpr hh

theorem strLt_irrefl (a : String) : strLt a a = false :=
  charsLt_irrefl a.data

theorem strLt_asymm {a b : String} (h : strLt a b = true) :
    strLt b a = false :=
  charsLt_asymm a.data b.data h

theorem strLt_trans {a b c : String} (h1 : strLt a b = true)
    (h2 : strLt b c = true) : strLt a c = true :=
  charsLt_trans a.data b.data c.data h1 h2

theorem strLt_eq_of_not {a b : String} (h1 : strLt a b = false)
    (h2 : strLt b a = false) : a = b := by
  cases a with
  | mk la =>
    cases b with
    | mk lb => exact congrArg String.mk (charsLt_eq_of_not la lb h1 h2)

theorem strLt_iff_lt (a b : String) : strLt a b = true ↔ a < b := by
  rw [String.lt_iff_toList_lt]
  exact charsLt_iff_lex a.data b.data

theorem strLt_trichotomy (a b : String) :
    strLt a b = true ∧ strLt b a = false ∧ a ≠ b ∨
    a = b ∧ strLt a b = false ∧ strLt b a = false ∨
    strLt b a = true ∧ strLt a b = false ∧ a ≠ b := by
  by_cases h1 : strLt a b = true
  · refine Or.inl ⟨h1, strLt_asymm h1, ?_⟩
    intro he
    subst he
    rw [strLt_irrefl] at h1
    exact Bool.noConfusion h1
  · have h1f : strLt a b = false := by
      cases hb : strLt a b
      · rfl
      · exact absurd hb h1
    by_cases h2 : strLt b a = true
    · refine Or.inr (Or.inr ⟨h2, h1f, ?_⟩)
      intro he
      subst he
      rw [strLt_irrefl] at h2
      exact Bool.noConfusion h2
    · have h2f : strLt b a = false := by
        cases hb : strLt b a
        · rfl
        · exact absurd hb h2
      exact Or.inr (Or.inl ⟨strLt_eq_of_not h1f h2f, h1f, h2f⟩)

/-! Rewrite rules for the ordered-map insertion. -/

theorem addUsage_nil (d f : String) : addUsage [] d f = [(d, {f})] :=
  rfl

theorem addUsage_cons_lt {d k : String} (h : strLt d k = true)
    (s : Finset String) (m : UsageMap) (f : String) :
    addUsage ((k, s) :: m) d f = (d, {f}) :: (k, s) :: m := by
  simp [addUsage, h]

theorem addUsage_cons_self (k : String) (s : Finset String) (m : UsageMap)
    (f : String) : addUsage ((k, s) :: m) k f = (k, insert f s) :: m := by
  simp [addUsage, strLt_irrefl]

theorem addUsage_cons_gt {d k : String} (h1 : strLt d k = false)
    (h2 : d ≠ k) (s : Finset String) (m : UsageMap) (f : String) :
    addUsage ((k, s) :: m) d f = (k, s) :: addUsage m d f := by
  simp [addUsage, h1, h2]

theorem addUsage_comm_lt {d1 d2 : String} (h12 : strLt d1 d2 = true) :
    ∀ (m : UsageMap) (f1 f2 : String),
      addUsage (addUsage m d1 f1) d2 f2 =
        addUsage (addUsage m d2 f2) d1 f1 := by
  have h21 : strLt d2 d1 = false := strLt_asymm h12
  have hne : d1 ≠ d2 := by
    intro he
    subst he
    rw [strLt_irrefl] at h12
    exact Bool.noConfusion h12
  intro m
  induction m with
  | nil =>
    intro f1 f2
    rw [addUsage_nil, addUsage_nil, addUsage_cons_gt h21 (Ne.symm hne),
      addUsage_cons_lt h12, addUsage_nil]
  | cons hd m ih =>
    obtain ⟨k, s⟩ := hd
    intro f1 f2
    rcases strLt_trichotomy d1 k with ⟨ha, hb, hc⟩ | ⟨ha, hb, hc⟩ |
      ⟨hb, ha, hc⟩
    · -- d1 < k
      rw [addUsage_cons_lt ha, addUsage_cons_gt h21 (Ne.symm hne)]
      rcases strLt_trichotomy d2 k with ⟨hx, hy, hz⟩ | ⟨hx, hy, hz⟩ |
        ⟨hy, hx, hz⟩
      · rw [addUsage_cons_lt hx, addUsage_cons_lt h12]
      · subst hx
        rw [addUsage_cons_self, addUsage_cons_lt ha]
      · rw [addUsage_cons_gt hx hz, addUsage_cons_lt ha]
    · -- d1 = k
      subst ha
      rw [addUsage_cons_self, addUsage_cons_gt h21 (Ne.symm hne),
        addUsage_cons_gt h21 (Ne.symm hne), addUsage_cons_self]
    · -- k < d1, hence k < d2
      have hk2 : strLt k d2 = true := strLt_trans hb h12
      have h2k : strLt d2 k = false := strLt_asymm hk2
      have h2kne : d2 ≠ k := by
        intro he
        subst he
        rw [strLt_irrefl] at hk2
        exact Bool.noConfusion hk2
      rw [addUsage_cons_gt ha hc, addUsage_cons_gt h2k h2kne, ih f1 f2,
        addUsage_cons_gt h2k h2kne, addUsage_cons_gt ha hc]

theorem addUsage_comm_eq :
    ∀ (m : UsageMap) (d f1 f2 : String),
      addUsage (addUsage m d f1) d f2 = addUsage (addUsage m d f2) d f1 := by
  intro m
  induction m with
  | nil =>
    intro d f1 f2
    rw [addUsage_nil, addUsage_nil, addUsage_cons_self, addUsage_cons_self,
      Finset.pair_comm]
  | cons hd m ih =>
    obtain ⟨k, s⟩ := hd
    intro d f1 f2
    rcases strLt_trichotomy d k with ⟨ha, hb, hc⟩ | ⟨ha, hb, hc⟩ |
      ⟨hb, ha, hc⟩
    · rw [addUsage_cons_lt ha, addUsage_cons_lt ha, addUsage_cons_self,
        addUsage_cons_self, Finset.pair_comm]
    · subst ha
      rw [addUsage_cons_self, addUsage_cons_self, addUsage_cons_self,
        addUsage_cons_self, Finset.Insert.comm]
    · rw [addUsage_cons_gt ha hc, addUsage_cons_gt ha hc,
        addUsage_cons_gt ha hc, ih d f1 f2, addUsage_cons_gt ha hc]

theorem addUsage_comm (m : UsageMap) (d1 f1 d2 f2 : String) :
    addUsage (addUsage m d1 f1) d2 f2 = addUsage (addUsage m d2 f2) d1 f1 := by
  rcases strLt_trichotomy d1 d2 with ⟨h, _, _⟩ | ⟨h, _, _⟩ | ⟨h, _, _⟩
  · exact addUsage_comm_lt h m f1 f2
  · subst h
    exact addUsage_comm_eq m d1 f1 f2
  · exact (addUsage_comm_lt h m f2 f1).symm

theorem addFile_nil (m : UsageMap) (f : String) : addFile m f [] = m :=
  rfl

theorem addFile_cons (m : UsageMap) (f d : String) (ds : List String) :
    addFile m f (d :: ds) = addFile (addUsage m d f) f ds :=
  rfl

theorem addUsage_addFile_comm :
    ∀ (ds : List String) (m : UsageMap) (d f g : String),
      addFile (addUsage m d f) g ds = addUsage (addFile m g ds) d f := by
  intro ds
  induction ds with
  | nil =>
    intro m d f g
    rfl
  | cons e ds ih =>
    intro m d f g
    rw [addFile_cons, addFile_cons, addUsage_comm, ih]

theorem addFile_comm :
    ∀ (ds1 : List String) (m : UsageMap) (f1 : String) (ds2 : List String)
      (f2 : String),
      addFile (addFile m f1 ds1) f2 ds2 =
        addFile (addFile m f2 ds2) f1 ds1 := by
  intro ds1
  induction ds1 with
  | nil =>
    intro m f1 ds2 f2
    rfl
  | cons d ds ih =>
    intro m f1 ds2 f2
    rw [addFile_cons, ih, addUsage_addFile_comm, addFile_cons]

theorem aggregate_perm {l1 l2 : List (String × List String)}
    (h : l1.Perm l2) : aggregate l1 = aggregate l2 :=
  h.foldl_eq' (fun x _ y _ z => addFile_comm x.2 z x.1 y.2 y.1) []

/-! Sortedness of the usage-map keys. -/

theorem mem_addUsage_key :
    ∀ (m : UsageMap) (d f : String) (x : String × Finset String),
      x ∈ addUsage m d f → x.1 = d ∨ x.1 ∈ usageKeys m := by
  intro m
  induction m with
  | nil =>
    intro d f x hx
    rw [addUsage_nil] at hx
    rcases List.mem_singleton.mp hx with h
    exact Or.inl (by rw [h])
  | cons hd m ih =>
    obtain ⟨k, s⟩ := hd
    intro d f x hx
    rcases strLt_trichotomy d k with ⟨ha, hb, hc⟩ | ⟨ha, hb, hc⟩ |
      ⟨hb, ha, hc⟩
    · rw [addUsage_cons_lt ha] at hx
      rcases List.mem_cons.mp hx with h | h
      · exact Or.inl (by rw [h])
      · exact Or.inr (List.mem_map_of_mem Prod.fst h)
    · subst ha
      rw [addUsage_cons_self] at hx
      rcases List.mem_cons.mp hx with h | h
      · exact Or.inl (by rw [h])
      · exact Or.inr (List.mem_map.mpr ⟨x, List.mem_cons_of_mem _ h, rfl⟩)
    · rw [addUsage_cons_gt ha hc] at hx
      rcases List.mem_cons.mp hx with h | h
      · subst h
        exact Or.inr (List.mem_map.mpr ⟨(k, s), List.mem_cons_self _ _, rfl⟩)
      · rcases ih d f x h with h2 | h2
        · exact Or.inl h2
        · rcases List.mem_map.mp h2 with ⟨y, hy, hxy⟩
          exact Or.inr
            (List.mem_map.mpr ⟨y, List.mem_cons_of_mem _ hy, hxy⟩)

theorem addUsage_pairwise {m : UsageMap}
    (hm : m.Pairwise (fun a b => strLt a.1 b.1 = true)) (d f : String) :
    (addUsage m d f).Pairwise (fun a b => strLt a.1 b.1 = true) := by
  induction m with
  | nil =>
    rw [addUsage_nil]
    exact List.pairwise_singleton _ _
  | cons hd m ih =>
    obtain ⟨k, s⟩ := hd
    rcases List.pairwise_cons.mp hm with ⟨hhead, htail⟩
    rcases strLt_trichotomy d k with ⟨ha, hb, hc⟩ | ⟨ha, hb, hc⟩ |
      ⟨hb, ha, hc⟩
    · rw [addUsage_cons_lt ha]
      refine List.pairwise_cons.mpr ⟨?_, hm⟩
      intro y hy
      rcases List.mem_cons.mp hy with h | h
      · rw [h]
        exact ha
      · exact strLt_trans ha (hhead y h)
    · subst ha
      rw [addUsage_cons_self]
      exact List.pairwise_cons.mpr ⟨fun y hy => hhead y hy, htail⟩
    · rw [addUsage_cons_gt ha hc]
      refine List.pairwise_cons.mpr ⟨?_, ih htail⟩
      intro y hy
      rcases mem_addUsage_key m d f y hy with h | h
      · rw [h]
        exact hb
      · rcases List.mem_map.mp h with ⟨z, hz, hzy⟩
        rw [← hzy]
        exact hhead z hz

theorem addFile_pairwise :
    ∀ (ds : List String) (m : UsageMap)
      (hm : m.Pairwise (fun a b => strLt a.1 b.1 = true)) (f : String),
      (addFile m f ds).Pairwise (fun a b => strLt a.1 b.1 = true) := by
  intro ds
  induction ds with
  | nil =>
    intro m hm f
    exact hm
  | cons d ds ih =>
    intro m hm f
    rw [addFile_cons]
    exact ih (addUsage m d f) (addUsage_pairwise hm d f) f

theorem aggregate_foldl_pairwise :
    ∀ (l : List (String × List String)) (m : UsageMap),
      m.Pairwise (fun a b => strLt a.1 b.1 = true) →
      (l.foldl (fun acc e => addFile acc e.1 e.2) m).Pairwise
        (fun a b => strLt a.1 b.1 = true) := by
  intro l
  induction l with
  | nil =>
    intro m hm
    exact hm
  | cons e l ih =>
    intro m hm
    exact ih (addFile m e.1 e.2) (addFile_pairwise e.2 m hm e.1)

theorem aggregate_pairwise (l : List (String × List String)) :
    (aggregate l).Pairwise (fun a b => strLt a.1 b.1 = true) :=
  aggregate_foldl_pairwise l [] List.Pairwise.nil

/-! Key-membership lemmas for the aggregation and the extraction. -/

theorem key_mem_addUsage {m : UsageMap} {d f n : String}
    (h : n ∈ usageKeys (addUsage m d f)) : n = d ∨ n ∈ usageKeys m := by
  rcases List.mem_map.mp h with ⟨x, hx, hxn⟩
  rcases mem_addUsage_key m d f x hx with h2 | h2
  · exact Or.inl (hxn ▸ h2.symm ▸ rfl)
  · exact Or.inr (hxn ▸ h2)

theorem key_mem_addFile :
    ∀ (ds : List String) (m : UsageMap) (f n : String),
      n ∈ usageKeys (addFile m f ds) → n ∈ ds ∨ n ∈ usageKeys m := by
  intro ds
  induction ds with
  | nil =>
    intro m f n h
    exact Or.inr h
  | cons d ds ih =>
    intro m f n h
    rw [addFile_cons] at h
    rcases ih (addUsage m d f) f n h with h2 | h2
    · exact Or.inl (List.mem_cons_of_mem _ h2)
    · rcases key_mem_addUsage h2 with h3 | h3
      · exact Or.inl (h3 ▸ List.mem_cons_self _ _)
      · exact Or.inr h3

theorem key_mem_aggregate_foldl :
    ∀ (l : List (String × List String)) (m : UsageMap) (n : String),
      n ∈ usageKeys (l.foldl (fun acc e => addFile acc e.1 e.2) m) →
      n ∈ usageKeys m ∨ ∃ e ∈ l, n ∈ e.2 := by
  intro l
  induction l with
  | nil =>
    intro m n h
    exact Or.inl h
  | cons e l ih =>
    intro m n h
    rcases ih (addFile m e.1 e.2) n h with h2 | h2
    · rcases key_mem_addFile e.2 m e.1 n h2 with h3 | h3
      · exact Or.inr ⟨e, List.mem_cons_self _ _, h3⟩
      · exact Or.inl h3
    · rcases h2 with ⟨e2, he2, hne2⟩
      exact Or.inr ⟨e2, List.mem_cons_of_mem _ he2, hne2⟩

theorem key_mem_aggregate {l : List (String × List String)} {n : String}
    (h : n ∈ usageKeys (aggregate l)) : ∃ e ∈ l, n ∈ e.2 := by
  rcases key_mem_aggregate_foldl l [] n h with h2 | h2
  · exact absurd h2 (List.not_mem_nil n)
  · exact h2

theorem mem_forward {env : Env} {directory : String} {package : Package}
    {dependency n : String} (h : n ∈ forward env directory package dependency) :
    n = dependency ∨
      (package.is_dependency n = true ∨ package.is_dev_dependency n = true) := by
  unfold forward at h
  cases henv : env (node_modules_path directory dependency) with
  | none =>
    rw [henv] at h
    exact Or.inl (List.mem_singleton.mp h)
  | some m =>
    rw [henv] at h
    rcases List.mem_cons.mp h with h2 | h2
    · exact Or.inl h2
    · rcases List.mem_append.mp h2 with h3 | h3
      · rcases List.mem_filter.mp h3 with ⟨_, hp⟩
        exact Or.inr (Bool.or_eq_true_iff.mp hp)
      · rcases List.mem_filter.mp h3 with ⟨_, hp⟩
        exact Or.inr (Bool.or_eq_true_iff.mp hp)

theorem mem_extract_file_dependencies {env : Env} {config : Config}
    {package : Package} {dialect : Dialect} {raw : List RawDep} {n : String}
    (h : n ∈ extract_file_dependencies env config package dialect raw) :
    ∃ d : String, is_core_module d = false ∧
      n ∈ forward env config.directory package d := by
  unfold extract_file_dependencies at h
  rcases List.mem_flatMap.mp h with ⟨d, hd, hn⟩
  rcases List.mem_filter.mp (List.mem_of_mem_filter hd) with ⟨_, hcore⟩
  refine ⟨d, ?_, hn⟩
  cases hc : is_core_module d with
  | false => rfl
  | true =>
    rw [hc] at hcore
    exact Bool.noConfusion hcore

theorem segmentsAux_ne_nil : ∀ (cs acc : List Char), segmentsAux cs acc ≠ [] := by
  intro cs
  induction cs with
  | nil =>
    intro acc h
    exact List.noConfusion h
  | cons c cs ih =>
    intro acc
    by_cases hc : c = '/'
    · simp [segmentsAux, hc]
    · simp only [segmentsAux, if_neg hc]
      exact ih (c :: acc)

theorem path_segments_ne_nil (s : String) : path_segments s ≠ [] := by
  unfold path_segments
  intro h
  exact segmentsAux_ne_nil s.data [] (List.map_eq_nil_iff.mp h)

theorem build_overrides_ok {co : String → Bool} :
    ∀ {ps : List String}, (∀ q ∈ ps, co q = true) →
      build_overrides co ps = Except.ok () := by
  intro ps
  induction ps with
  | nil =>
    intro _
    rfl
  | cons p ps ih =>
    intro hall
    unfold build_overrides
    rw [hall p (List.mem_cons_self p ps)]
    exact ih (fun q hq => hall q (List.mem_cons_of_mem p hq))

theorem build_overrides_error {co : String → Bool} :
    ∀ (pre : List String) (p : String) (post : List String),
      (∀ q ∈ pre, co q = true) → co p = false →
      build_overrides co (pre ++ p :: post) =
        Except.error ("Malformed ignore pattern: " ++ p) := by
  intro pre
  induction pre with
  | nil =>
    intro p post _ hp
    unfold build_overrides
    rw [List.nil_append]
    simp [build_overrides, hp]
  | cons q pre ih =>
    intro p post hpre hp
    rw [List.cons_append]
    unfold build_overrides
    rw [hpre q (List.mem_cons_self q pre)]
    exact ih p post (fun r hr => hpre r (List.mem_cons_of_mem q hr)) hp

theorem mem_filter_unused {env : Env} {r : CheckResult} {deps : DepsSet}
    {dep : String} :
    dep ∈ filter_unused_dependencies env r deps ↔
      (dep ∈ DepsSet.keys deps ∧
        r.config.ignore_matcher dep = false ∧
        dep ∉ usageKeys r.using_dependencies ∧
        (r.config.ignore_bin_package = true →
          is_bin_dependency env r.directory dep = false)) := by
  unfold filter_unused_dependencies
  constructor
  · intro h
    rcases List.mem_map.mp h with ⟨e, he, heq⟩
    rcases List.mem_filter.mp he with ⟨he2, hp3⟩
    rcases List.mem_filter.mp he2 with ⟨he3, hp2⟩
    rcases List.mem_filter.mp he3 with ⟨he4, hp1⟩
    subst heq
    refine ⟨List.mem_map_of_mem Prod.fst he4, ?_, ?_, ?_⟩
    · simpa using hp1
    · simpa [List.contains, List.elem_eq_mem] using hp2
    · intro hib
      rw [hib] at hp3
      simpa using hp3
  · rintro ⟨hkey, hig, hus, hbin⟩
    rcases List.mem_map.mp hkey with ⟨e, he, heq⟩
    refine List.mem_map.mpr ⟨e, ?_, heq⟩
    refine List.mem_filter.mpr
      ⟨List.mem_filter.mpr ⟨List.mem_filter.mpr ⟨he, ?_⟩, ?_⟩, ?_⟩
    · simp [heq, hig]
    · simp [List.contains, List.elem_eq_mem, heq, hus]
    · cases hib : r.config.ignore_bin_package with
      | false => simp [hib]
      | true => simp [heq, hbin hib]

/-! Claim theorems. -/

/-- C8: package-name normalization keeps the first two path segments of a
scoped specifier (leading at-sign) and only the first segment otherwise;
in particular `@scope/pkg/sub/path` normalizes to `@scope/pkg`. -/
theorem extract_package_name_spec :
    (∀ s : String, extract_package_name s =
      join_path ((path_segments s).take
        (if starts_with_at s = true then 2 else 1))) ∧
    extract_package_name "@scope/pkg/sub/path" = "@scope/pkg" ∧
    extract_package_name "@scope/pkg" = "@scope/pkg" ∧
    extract_package_name "lodash/fp/extra" = "lodash" ∧
    extract_package_name "lodash" = "lodash" := by
  refine ⟨?_, by decide, by decide, by decide, by decide⟩
  intro s
  unfold extract_package_name
  by_cases h : starts_with_at s = true
  · rw [if_pos h, if_pos h]
  · rw [if_neg h, if_neg h]
    cases hseg : path_segments s with
    | nil => exact absurd hseg (path_segments_ne_nil s)
    | cons a rest => simp [join_path]

/-- C8 witness: the general segment equation evaluated at a concrete
scoped specifier. -/
theorem extract_package_name_spec_witness :
    extract_package_name "@scope/pkg/sub/path" =
      join_path ((path_segments "@scope/pkg/sub/path").take
        (if starts_with_at "@scope/pkg/sub/path" = true then 2 else 1)) :=
  extract_package_name_spec.1 "@scope/pkg/sub/path"

/-- C3: under the TypeScript dialect, a type-only import of `n` whose
`@types/n` stub is declared as a dependency or dev-dependency contributes
`@types/n` and not `n`; an ordinary (value) import of `n` contributes both
`n` and `@types/n`. -/
theorem classify_typescript_types (p : Package) (n : String)
    (h : p.is_dependency ("@types/" ++ n) = true ∨
      p.is_dev_dependency ("@types/" ++ n) = true) :
    (classify Dialect.typescript p n DepKind.importType = ["@types/" ++ n] ∧
      n ∉ classify Dialect.typescript p n DepKind.importType) ∧
    ∀ k : DepKind, k ≠ DepKind.importType →
      classify Dialect.typescript p n k = [n, "@types/" ++ n] := by
  have hb : (p.is_dependency ("@types/" ++ n) ||
      p.is_dev_dependency ("@types/" ++ n)) = true := by
    rcases h with h | h <;> simp [h]
  have hne : ("@types/" ++ n) ≠ n := by
    intro he
    have hlen := congrArg String.length he
    rw [String.length_append] at hlen
    have h7 : "@types/".length = 7 := by decide
    rw [h7] at hlen
    omega
  refine ⟨⟨?_, ?_⟩, ?_⟩
  · simp [classify, hb]
  · simp [classify, hb]
    exact fun he => hne he.symm
  · intro k hk
    have hkb : (k == DepKind.importType) = false := by
      simp [hk]
    simp [classify, hkb, extract_type_name, hb]

/-- C3 witness: type stubs for `react` are declared in the fixture,
so a type-only import of `react` contributes exactly its stub. -/
theorem classify_typescript_types_witness :
    classify Dialect.typescript typesPkg "react" DepKind.importType =
      ["@types/" ++ "react"] :=
  (classify_typescript_types typesPkg "react" (Or.inr (by decide))).1.1

/-- C10: under the TypeScript dialect, a type-only import of `n` with no
declared `@types/n` stub contributes nothing at all: classification yields
the empty list, and a file whose only raw dependency is such an import
extracts no names, so `n` is neither counted as used nor reported
missing. -/
theorem classify_type_only_undeclared (p : Package) (n : String)
    (h1 : p.is_dependency ("@types/" ++ n) = false)
    (h2 : p.is_dev_dependency ("@types/" ++ n) = false) :
    classify Dialect.typescript p n DepKind.importType = [] ∧
    ∀ (env : Env) (config : Config) (s : String),
      extract_package_name s = n →
      extract_file_dependencies env config p Dialect.typescript
        [⟨s, DepKind.importType⟩] = [] := by
  have hb : (p.is_dependency ("@types/" ++ n) ||
      p.is_dev_dependency ("@types/" ++ n)) = false := by
    simp [h1, h2]
  constructor
  · simp [classify, hb]
  · intro env config s hs
    unfold extract_file_dependencies
    cases he : is_external_specifier s with
    | false => simp [he]
    | true => simp [he, hs, classify, h1, h2]

/-- C10 witness: the fixture declares no `@types/left-pad`, so a
type-only usage of `left-pad` extracts nothing. -/
theorem classify_type_only_undeclared_witness :
    extract_file_dependencies emptyEnv plainConfig typesPkg
      Dialect.typescript [⟨"left-pad", DepKind.importType⟩] = [] :=
  (classify_type_only_undeclared typesPkg "left-pad" (by decide)
    (by decide)).2 emptyEnv plainConfig "left-pad" (by decide)

/-- C4: the aggregation of per-file extracted name-sets into the usage map
is commutative and order-independent — any permutation of the (file,
name-set) pairs yields the same final map — and the final map's keys are
in ascending order. -/
theorem aggregate_order_independent (l1 l2 : List (String × List String))
    (h : l1.Perm l2) :
    aggregate l1 = aggregate l2 ∧
    (aggregate l1).Pairwise (fun a b => a.1 < b.1) :=
  ⟨aggregate_perm h,
    (aggregate_pairwise l1).imp (fun hab => (strLt_iff_lt _ _).mp hab)⟩

/-- C4 witness: two concrete file lists that are permutations of each
other aggregate to the same sorted map. -/
theorem aggregate_order_independent_witness :
    aggregate [("b.js", ["y"]), ("a.js", ["x"])] =
      aggregate [("a.js", ["x"]), ("b.js", ["y"])] ∧
    (aggregate [("b.js", ["y"]), ("a.js", ["x"])]).Pairwise
      (fun a b => a.1 < b.1) :=
  aggregate_order_independent _ _ (by decide)

/-- C5: a surviving extracted name whose own manifest loads from the local
install location additionally credits the file with the nested manifest's
peer- and optional-dependency names that the root manifest declares as a
dependency or dev-dependency; a failed nested load raises no error and
keeps only the direct name. -/
theorem forward_spec (env : Env) (directory : String) (package : Package)
    (dependency : String) :
    (∀ m : Package, env (node_modules_path directory dependency) = some m →
      ∀ n : String,
        (n ∈ forward env directory package dependency ↔
          (n = dependency ∨
            ((n ∈ m.peer_dependencies.keys ∨
                n ∈ m.optional_dependencies.keys) ∧
              (package.is_dependency n = true ∨
                package.is_dev_dependency n = true))))) ∧
    (env (node_modules_path directory dependency) = none →
      forward env directory package dependency = [dependency]) := by
  constructor
  · intro m hm n
    unfold forward
    rw [hm]
    simp only [List.mem_cons, List.mem_append, List.mem_filter,
      Bool.or_eq_true_iff]
    tauto
  · intro hm
    unfold forward
    rw [hm]

/-- C5 witness: loading the fixture `lodash` manifest forwards its
root-declared peer dependency `fs` to the file. -/
theorem forward_spec_witness :
    "fs" ∈ forward lodashEnv "/proj" rootPkg "lodash" :=
  ((forward_spec lodashEnv "/proj" rootPkg "lodash").1 lodashPkg (by decide)
    "fs").mpr (Or.inr ⟨Or.inl (by decide), Or.inl (by decide)⟩)

/-- C1: `get_missing_dependencies` returns exactly the usage-map entries
whose key is declared in none of the four manifest mappings, not matched
by the ignore-name patterns, and not bin-only when that filter is enabled
— each key keeping exactly its set of using files — and returns the empty
map when `skip_missing` is set. -/
theorem get_missing_dependencies_spec (env : Env) (r : CheckResult) :
    (r.config.skip_missing = true → get_missing_dependencies env r = []) ∧
    (r.config.skip_missing = false →
      ∀ (dep : String) (files : Finset String),
        ((dep, files) ∈ get_missing_dependencies env r ↔
          ((dep, files) ∈ r.using_dependencies ∧
            r.config.ignore_matcher dep = false ∧
            r.package.dependencies.hasKey dep = false ∧
            r.package.dev_dependencies.hasKey dep = false ∧
            r.package.peer_dependencies.hasKey dep = false ∧
            r.package.optional_dependencies.hasKey dep = false ∧
            (r.config.ignore_bin_package = true →
              is_bin_dependency env r.directory dep = false)))) := by
  constructor
  · intro h
    simp [get_missing_dependencies, h]
  · intro h dep files
    unfold get_missing_dependencies
    rw [if_neg (by simp [h])]
    constructor
    · intro hmem
      rcases List.mem_filter.mp hmem with ⟨hm2, hp3⟩
      rcases List.mem_filter.mp hm2 with ⟨hm3, hp2⟩
      rcases List.mem_filter.mp hm3 with ⟨hm4, hp1⟩
      have hany : r.package.is_any_dependency dep = false := by
        simpa using hp2
      have hsplit : ((r.package.dependencies.hasKey dep = false ∧
          r.package.dev_dependencies.hasKey dep = false) ∧
          r.package.peer_dependencies.hasKey dep = false) ∧
          r.package.optional_dependencies.hasKey dep = false := by
        simpa [Package.is_any_dependency, Package.is_dependency,
          Package.is_dev_dependency, Package.is_peer_dependency,
          Package.is_optional_dependency] using hany
      refine ⟨hm4, by simpa using hp1, hsplit.1.1.1, hsplit.1.1.2,
        hsplit.1.2, hsplit.2, ?_⟩
      intro hib
      rw [hib] at hp3
      simpa using hp3
    · rintro ⟨hmem, hig, hd1, hd2, hd3, hd4, hbin⟩
      refine List.mem_filter.mpr
        ⟨List.mem_filter.mpr ⟨List.mem_filter.mpr ⟨hmem, ?_⟩, ?_⟩, ?_⟩
      · simp [hig]
      · simp [Package.is_any_dependency, Package.is_dependency,
          Package.is_dev_dependency, Package.is_peer_dependency,
          Package.is_optional_dependency, hd1, hd2, hd3, hd4]
      · cases hib : r.config.ignore_bin_package with
        | false => simp [hib]
        | true => simp [hbin hib]

/-- C1 witness: the skip-missing configuration yields the empty map, and
the undeclared used name `c` is reported with exactly its using file. -/
theorem get_missing_dependencies_spec_witness :
    get_missing_dependencies emptyEnv skipResult = [] ∧
    ("c", ({"index.js"} : Finset String)) ∈
      get_missing_dependencies emptyEnv missingResult :=
  ⟨(get_missing_dependencies_spec emptyEnv skipResult).1 rfl,
    ((get_missing_dependencies_spec emptyEnv missingResult).2 rfl "c"
      {"index.js"}).mpr (by decide)⟩

/-- C2: `get_unused_dependencies` returns exactly the declared regular
dependencies that are no usage-map key, not matched by the ignore-name
patterns, and not bin-only when that filter is enabled;
`get_unused_dev_dependencies` is the same computation over the dev
dependencies; and the `{a, b}`-versus-`{a}` scenario yields `{b}`. -/
theorem get_unused_dependencies_spec (env : Env) (r : CheckResult) :
    (∀ dep : String, dep ∈ get_unused_dependencies env r ↔
      (dep ∈ DepsSet.keys r.package.dependencies ∧
        r.config.ignore_matcher dep = false ∧
        dep ∉ usageKeys r.using_dependencies ∧
        (r.config.ignore_bin_package = true →
          is_bin_dependency env r.directory dep = false))) ∧
    (∀ dep : String, dep ∈ get_unused_dev_dependencies env r ↔
      (dep ∈ DepsSet.keys r.package.dev_dependencies ∧
        r.config.ignore_matcher dep = false ∧
        dep ∉ usageKeys r.using_dependencies ∧
        (r.config.ignore_bin_package = true →
          is_bin_dependency env r.directory dep = false))) ∧
    get_unused_dependencies emptyEnv abResult = ["b"] :=
  ⟨fun _ => mem_filter_unused, fun _ => mem_filter_unused, by decide⟩

/-- C2 witness: the concrete scenario conjunct evaluated through the
theorem. -/
theorem get_unused_dependencies_spec_witness :
    get_unused_dependencies emptyEnv abResult = ["b"] :=
  (get_unused_dependencies_spec emptyEnv abResult).2.2

/-- C6: a malformed ignore glob aborts the whole check with a typed,
contextual error before any traversal — the error does not depend on the
walk entries — and with all patterns well-formed the check never fails,
whatever per-entry walk errors occur: the malformed pattern is the only
fatal walker error. -/
theorem check_directory_malformed_pattern (co : String → Bool) (env : Env)
    (config : Config) (package : Package) (parse : ParseFn)
    (entries : List WalkEntry) :
    (∀ (pre : List String) (p : String) (post : List String),
      config.ignore_patterns = pre ++ p :: post →
      (∀ q ∈ pre, co q = true) → co p = false →
      check_directory co env config package parse entries =
        Except.error ("Malformed ignore pattern: " ++ p)) ∧
    ((∀ q ∈ config.ignore_patterns, co q = true) →
      ∃ m, check_directory co env config package parse entries =
        Except.ok m) := by
  constructor
  · intro pre p post hp hpre hcop
    unfold check_directory
    rw [hp, build_overrides_error pre p post hpre hcop]
  · intro hall
    unfold check_directory
    rw [build_overrides_ok hall]
    exact ⟨_, rfl⟩

/-- C6 witness: the malformed second pattern of the fixture configuration
aborts the check with its contextual message even though a walk error sits
in the entry stream. -/
theorem check_directory_malformed_pattern_witness :
    check_directory bracketCompile emptyEnv badPatternConfig rootPkg
      failParse [Except.error "permission denied"] =
      Except.error ("Malformed ignore pattern: " ++ "[") :=
  (check_directory_malformed_pattern bracketCompile emptyEnv
    badPatternConfig rootPkg failParse [Except.error "permission denied"]).1
    ["ok"] "[" ["later"] rfl (by decide) (by decide)

/-- C7: a file whose parse fails contributes nothing to the usage map —
the check over entries containing it equals the check over the remaining
entries — and with well-formed patterns the run still returns a result. -/
theorem check_directory_parse_failure (co : String → Bool) (env : Env)
    (config : Config) (package : Package) (parse : ParseFn) (path : String)
    (l1 l2 : List WalkEntry) (h : parse path = none) :
    check_directory co env config package parse
      (l1 ++ Except.ok path :: l2) =
      check_directory co env config package parse (l1 ++ l2) ∧
    ((∀ q ∈ config.ignore_patterns, co q = true) →
      ∃ m, check_directory co env config package parse
        (l1 ++ Except.ok path :: l2) = Except.ok m) := by
  constructor
  · unfold check_directory
    cases build_overrides co config.ignore_patterns with
    | error e => rfl
    | ok u =>
      simp [List.filterMap_append, List.filterMap_cons, h]
  · intro hall
    unfold check_directory
    rw [build_overrides_ok hall]
    exact ⟨_, rfl⟩

/-- C7 witness: with an all-failing parser, a run over one file equals the
run over no files. -/
theorem check_directory_parse_failure_witness :
    check_directory bracketCompile emptyEnv plainConfig rootPkg failParse
      [Except.ok "index.js"] =
      check_directory bracketCompile emptyEnv plainConfig rootPkg failParse
        [] :=
  (check_directory_parse_failure bracketCompile emptyEnv plainConfig
    rootPkg failParse "index.js" [] [] rfl).1

/-- C9 counterexample: `fs` is on the built-in allow-list, yet it appears
as a key of the usage map of a concrete run, re-introduced by transitive
peer forwarding of a root-declared name after the core-module filter. -/
theorem core_module_usage_counterexample :
    is_core_module "fs" = true ∧
    "fs" ∈ usageKeys (run_usage lodashEnv plainConfig rootPkg
      lodashParsed) := by
  decide

/-- C9 (amended): built-in names are dropped by the extraction filter and
can only re-enter the usage map through transitive forwarding of names the
root manifest declares; consequently a built-in name never appears in the
missing-dependency map of any run. -/
theorem core_module_never_missing (env : Env) (config : Config)
    (package : Package) (parsed : List (String × Dialect × List RawDep))
    (n : String) (h : is_core_module n = true) :
    n ∉ usageKeys (get_missing_dependencies env
      ⟨package, config.directory,
        run_usage env config package parsed, config⟩) := by
  intro hmem
  unfold get_missing_dependencies at hmem
  by_cases hskip : config.skip_missing = true
  · rw [if_pos hskip] at hmem
    exact absurd hmem (List.not_mem_nil n)
  · rw [if_neg hskip] at hmem
    rcases List.mem_map.mp hmem with ⟨x, hx, hxn⟩
    rcases List.mem_filter.mp hx with ⟨hx2, _⟩
    rcases List.mem_filter.mp hx2 with ⟨hx3, hany⟩
    rcases List.mem_filter.mp hx3 with ⟨hx4, _⟩
    have hanyf : package.is_any_dependency n = false := by
      rw [← hxn]
      simpa using hany
    have hkey : n ∈ usageKeys (run_usage env config package parsed) := by
      rw [← hxn]
      exact List.mem_map_of_mem Prod.fst hx4
    rcases key_mem_aggregate hkey with ⟨e, he, hne⟩
    rcases List.mem_map.mp he with ⟨f, _, hfe⟩
    rw [← hfe] at hne
    rcases mem_extract_file_dependencies hne with ⟨d, hdcore, hdfwd⟩
    rcases mem_forward hdfwd with heq | hdecl
    · rw [heq] at h
      rw [h] at hdcore
      exact Bool.noConfusion hdcore
    · have : package.is_any_dependency n = true := by
        unfold Package.is_any_dependency
        rcases hdecl with hd | hd <;> simp [hd]
      rw [this] at hanyf
      exact Bool.noConfusion hanyf

/-- C9 witness: the amended guarantee on the concrete counterexample run —
`fs` reaches the usage map but not the missing map. -/
theorem core_module_never_missing_witness :
    "fs" ∉ usageKeys (get_missing_dependencies lodashEnv
      ⟨rootPkg, plainConfig.directory,
        run_usage lodashEnv plainConfig rootPkg lodashParsed,
        plainConfig⟩) :=
  core_module_never_missing lodashEnv plainConfig rootPkg lodashParsed "fs"
    (by decide)

end Depcheck
